import Mathlib

/-
Verification of the liv-conventions hook collection.

The decision logic of each hook (`main.py` of ControllerServiceLayerReminder,
ControllerStructureValidator, FormRequestBlocker, VueScriptValidator and
E2EPathValidator) is embedded shallowly below.  Regular-expression searches of
the source are translated into executable character-list scanners with the
same semantics on the patterns actually used (each pattern is deterministic
after a literal anchor, so a greedy scan without backtracking is faithful).
The shared runtime-contract library (`claude_hook_utils`) is not part of the
sources; the small pieces of it the hooks use (event fields, response
constructors, glob matching) are modelled from the specification and marked
as such.  The External Reasoning Delegate is a boundary dependency and enters
as an explicit parameter: either the concatenated assistant text or the
raised error.
-/

namespace LivHooks

/-- Whitespace characters of the regex class `\s` used by the Python source
(space, tab, newline, carriage return, vertical tab, form feed). -/
def isWS (c : Char) : Bool :=
  c == ' ' || c == '\t' || c == '\n' || c == '\r' || c == '\x0b' || c == '\x0c'

/-- Word characters of the regex class `\w`, for ASCII input. -/
def isWord (c : Char) : Bool :=
  c.isAlpha || c.isDigit || c == '_'

/-- ASCII lower-casing of a character list (the inputs the hooks handle are
ASCII, where Python's lower-casing agrees with this one). -/
def lowerL (l : List Char) : List Char := l.map Char.toLower

/-- ASCII upper-casing of a character list. -/
def upperL (l : List Char) : List Char := l.map Char.toUpper

/-- Does `w` occur as a prefix of `l`? -/
def hasPre : List Char → List Char → Bool
  | [], _ => true
  | _ :: _, [] => false
  | a :: as, b :: bs => a == b && hasPre as bs

/-- Case-insensitive ASCII prefix test. -/
def hasPreCI : List Char → List Char → Bool
  | [], _ => true
  | _ :: _, [] => false
  | a :: as, b :: bs => (a.toLower == b.toLower) && hasPreCI as bs

/-- Remove the prefix `w` from `l`, or fail. -/
def dropPre? : List Char → List Char → Option (List Char)
  | [], l => some l
  | _ :: _, [] => none
  | a :: as, b :: bs => if a == b then dropPre? as bs else none

/-- Case-insensitive variant of `dropPre?`. -/
def dropPreCI? : List Char → List Char → Option (List Char)
  | [], l => some l
  | _ :: _, [] => none
  | a :: as, b :: bs => if a.toLower == b.toLower then dropPreCI? as bs else none

/-- Does `p` hold on some suffix of `l`?  This is how an unanchored regex
search tries every start position. -/
def scanAny (p : List Char → Bool) : List Char → Bool
  | [] => p []
  | c :: cs => p (c :: cs) || scanAny p cs

/-- Substring containment: `needle` occurs contiguously inside `hay`. -/
def containsL (needle hay : List Char) : Bool := scanAny (hasPre needle) hay

/-- Suffix test. -/
def endsL (needle l : List Char) : Bool := hasPre needle.reverse l.reverse

/-- `\s*`: drop leading whitespace. -/
def wsDrop (l : List Char) : List Char := l.dropWhile isWS

/-- `\s+`: require at least one whitespace character, then drop the whole
whitespace run (the patterns below always continue with a non-whitespace
literal, so the greedy run is the only viable split). -/
def wsPlus? : List Char → Option (List Char)
  | [] => none
  | c :: cs => if isWS c then some (wsDrop cs) else none

/-- Strip whitespace from both ends, as Python's `strip()`. -/
def trimL (l : List Char) : List Char :=
  ((l.dropWhile isWS).reverse.dropWhile isWS).reverse

/-- Split on `/`, accumulator form. -/
def splitSlashAux (acc : List Char) : List Char → List (List Char)
  | [] => [acc.reverse]
  | c :: cs =>
    if c == '/' then acc.reverse :: splitSlashAux [] cs
    else splitSlashAux (c :: acc) cs

/-- Split a path on `/`, as Python's `split("/")`. -/
def splitSlash (l : List Char) : List (List Char) := splitSlashAux [] l

/-- The final path segment, as Python's `split("/")[-1]`. -/
def lastSegment (l : List Char) : List Char := (splitSlash l).getLastD []

/-- Replace every backslash by a forward slash, as `replace("\\", "/")`. -/
def normSlash (l : List Char) : List Char :=
  l.map (fun c => if c == '\\' then '/' else c)

/-- Matches `W1\s+W2` at the head of `l` (the separated-words shape used by
the `extends FormRequest` and `artisan make:request` patterns). -/
def sepAt (w1 w2 : List Char) (l : List Char) : Bool :=
  match dropPre? w1 l with
  | none => false
  | some r =>
    match wsPlus? r with
    | none => false
    | some r2 => hasPre w2 r2

/-- Unanchored search for `W1\s+W2`. -/
def sepSearch (w1 w2 : List Char) (l : List Char) : Bool := scanAny (sepAt w1 w2) l

/-- Modelled from the spec: the recognized sub-fields of a tool-use event's
`tool_input` mapping (the typed event wrappers live in the runtime-contract
library `claude_hook_utils`, which is not among the sources). -/
structure ToolInput where
  file_path : Option String
  content : Option String
  old_string : Option String
  new_string : Option String
  command : Option String
  deriving Repr, DecidableEq

/-- Modelled from the spec: the unit crossing the boundary into a hook. -/
structure ToolUseEvent where
  hook_event_name : String
  tool_name : String
  tool_input : ToolInput
  tool_use_id : String
  deriving Repr, DecidableEq

/-- Modelled from the spec: the output object a hook nests under
`hookSpecificOutput`. -/
structure HookOutput where
  permissionDecision : Option String
  permissionDecisionReason : Option String
  additionalContext : Option String
  deriving Repr, DecidableEq

/-- Modelled from the spec: `PreToolUseResponse.allow()`. -/
def allowResponse : HookOutput := ⟨some "allow", none, none⟩

/-- Modelled from the spec: `PreToolUseResponse.deny(reason)`. -/
def denyResponse (reason : String) : HookOutput := ⟨some "deny", some reason, none⟩

/-- Modelled from the spec: `PostToolUseResponse.with_message(m)`, an
advisory carrying `additionalContext` and no permission decision. -/
def withMessageResponse (m : String) : HookOutput := ⟨none, none, some m⟩

/-- Modelled from the spec: the runtime helper `file_path_matches` applied to
the glob `**/*.vue` — the path ends in `.vue`. -/
def matchesVueGlob (p : String) : Bool := endsL ".vue".data p.data

/-- Adjacent segments `Http`, `Requests` followed by at least one further
segment. -/
def httpReqSegs : List (List Char) → Bool
  | [] => false
  | s :: rest =>
    (s == "Http".data &&
      (match rest with
       | r :: _ :: _ => r == "Requests".data
       | _ => false)) || httpReqSegs rest

/-- Modelled from the spec: `file_path_matches` applied to the glob
`**/Http/Requests/**/*.php` — the path contains the directory segments
`Http/Requests/` and names a `.php` file somewhere below them. -/
def matchesHttpRequestsGlob (p : String) : Bool :=
  httpReqSegs (splitSlash p.data) && endsL ".php".data p.data

/-- The vue-glob test as the VueScriptValidator handler sees it: a missing
file path never matches. -/
def vuePathMatches (fp : Option String) : Bool :=
  match fp with
  | some p => matchesVueGlob p
  | none => false

/-- The requests-glob test as the FormRequestBlocker handler sees it. -/
def requestsPathMatches (fp : Option String) : Bool :=
  match fp with
  | some p => matchesHttpRequestsGlob p
  | none => false

/-- `FormRequestBlocker`'s `GUIDANCE_MESSAGE` constant. -/
def formRequestGuidance : String :=
  "This project uses DataClasses (spatie/laravel-data) instead of FormRequests for validation.\n\nInstead of creating a FormRequest, create a Data class:\n\n1. Location: app/Data/\x7bDomain\x7d/\x7bName\x7dData.php (nested by domain)\n2. Pattern:\n   \x60\x60\x60php\n   namespace App\\Data\\\x7bDomain\x7d;\n\n   use Spatie\\LaravelData\\Data;\n\n   class \x7bName\x7dData extends Data\n   \x7b\n       public function __construct(\n           public string $field,\n           public ?int $optional_field = null,\n       ) \x7b\x7d\n   \x7d\n   \x60\x60\x60\n\n3. Usage in controller:\n   \x60\x60\x60php\n   public function store(\x7bName\x7dData $data): Response\n   \x7b\n       // $data is already validated\n   \x7d\n   \x60\x60\x60\n\nSee: app/Data/ for examples. Refer to spatie/laravel-data documentation for advanced patterns."

/-- The regex `use\s+Illuminate\\.*\\FormRequest` at the head of `l`:
`use`, whitespace, `Illuminate\`, then `\FormRequest` later on the same line
(`.` does not cross a newline). -/
def lineFind (w : List Char) : List Char → Bool
  | [] => false
  | c :: cs => hasPre w (c :: cs) || (c != '\n' && lineFind w cs)

/-- Head match for the Illuminate `FormRequest` import pattern. -/
def illumAt (l : List Char) : Bool :=
  match dropPre? "use".data l with
  | none => false
  | some r =>
    match wsPlus? r with
    | none => false
    | some r2 =>
      match dropPre? "Illuminate\\".data r2 with
      | none => false
      | some r3 => lineFind "\\FormRequest".data r3

/-- The source's search for a namespaced Illuminate `FormRequest` import. -/
def illuminateImport (content : String) : Bool := scanAny illumAt content.data

/-- `FormRequestBlocker._check_bash_command`. -/
def checkBashCommand (input : ToolUseEvent) : Option HookOutput :=
  let command := (input.tool_input.command).getD ""
  if sepSearch "artisan".data "make:request".data (lowerL command.data) then
    some (denyResponse ("Do not use \x27artisan make:request\x27. " ++ formRequestGuidance))
  else none

/-- `FormRequestBlocker._check_write_content`. -/
def checkWriteContent (input : ToolUseEvent) : Option HookOutput :=
  let content := (input.tool_input.content).getD ""
  if requestsPathMatches input.tool_input.file_path then
    some (denyResponse ("Do not create files in Http/Requests/. " ++ formRequestGuidance))
  else if sepSearch "extends".data "FormRequest".data content.data then
    some (denyResponse ("Do not extend FormRequest. " ++ formRequestGuidance))
  else if illuminateImport content then
    some (denyResponse ("Do not use Illuminate FormRequest. " ++ formRequestGuidance))
  else none

/-- `FormRequestBlocker.pre_tool_use`. -/
def formRequestBlockerPre (input : ToolUseEvent) : Option HookOutput :=
  if input.tool_name == "Bash" then checkBashCommand input
  else if input.tool_name == "Write" then checkWriteContent input
  else none

/-- `ControllerStructureValidator`'s `GUIDANCE_MESSAGE` constant. -/
def controllerGuidance : String :=
  "Controllers should be organized in nested domain folders, not placed directly in app/Http/Controllers/.\n\nInstead of:\n  ❌ app/Http/Controllers/UserController.php\n  ❌ app/Http/Controllers/OrderController.php\n\nUse nested domain folders:\n  ✅ app/Http/Controllers/Users/UserController.php\n  ✅ app/Http/Controllers/Orders/OrderController.php\n  ✅ app/Http/Controllers/Auth/LoginController.php\n\nThis structure:\n- Groups related controllers by domain/feature\n- Improves code organization and discoverability\n- Makes the codebase easier to navigate as it grows\n\nCreate the controller in an appropriate domain subdirectory."

/-- The regex `app/Http/Controllers/[^/]+\.php$` matching at the head of `l`,
where `l` is a suffix of the normalized path: the literal directory run, then
a slash-free remainder of at least five characters ending in `.php` (so that
at least one character precedes the extension) which, because of the `$`
anchor, must be the rest of the path. -/
def flatAt (l : List Char) : Bool :=
  match dropPre? "app/Http/Controllers/".data l with
  | none => false
  | some r => decide (5 ≤ r.length) && r.all (fun c => c != '/') && endsL ".php".data r

/-- `ControllerStructureValidator._is_flat_controller`. -/
def isFlatController (file_path : String) : Bool :=
  let normalized := normSlash file_path.data
  if scanAny flatAt normalized then
    containsL "Controller.php".data (lastSegment normalized)
  else false

/-- `ControllerStructureValidator.pre_tool_use` (with `_check_write_path` and
`_check_edit_path` inlined; the Edit branch always returns no opinion). -/
def controllerStructurePre (input : ToolUseEvent) : Option HookOutput :=
  if input.tool_name == "Write" then
    if isFlatController ((input.tool_input.file_path).getD "") then
      some (denyResponse
        ("Do not place controllers directly in app/Http/Controllers/. " ++ controllerGuidance))
    else none
  else if input.tool_name == "Edit" then none
  else none

/-- `ControllerServiceLayerReminder`'s `REMINDER_MESSAGE` constant. -/
def reminderMessage : String :=
  "The controller method contains direct Eloquent model mutations (save/update/delete/create).\n\nConsider extracting database operations to a dedicated service class. This provides:\n- Single point of entry for database mutations\n- Reusability across controllers, commands, and jobs\n- Easier unit testing\n- Consistent business logic\n\nThis is a reminder, not a requirement. Simple CRUD operations may not need a service."

/-- Characters of the return-type class `[\\?\w]`. -/
def isRetChar (c : Char) : Bool := c == '\\' || c == '?' || isWord c

/-- The optional return-type group `(?::\s*[\\?\w]+)?\s*` after the closing
parenthesis and its following whitespace: when a colon is present the group
must complete (the no-group alternative would immediately fail on the colon),
otherwise it is skipped. -/
def retType? : List Char → Option (List Char)
  | ':' :: r =>
    let r2 := (wsDrop r).dropWhile isRetChar
    if (wsDrop r).takeWhile isRetChar = [] then none else some (wsDrop r2)
  | l => some l

/-- The method-declaration regex
`public\s+function\s+NAME\s*\([^)]*\)\s*(?::\s*[\\?\w]+)?\s*\{` matching at
the head of `l`; on success returns the suffix beginning at the opening
brace, mirroring `match.end() - 1` in the source. -/
def methodHeadAt (name : List Char) (l : List Char) : Option (List Char) := do
  let r1 ← dropPre? "public".data l
  let r2 ← wsPlus? r1
  let r3 ← dropPre? "function".data r2
  let r4 ← wsPlus? r3
  let r5 ← dropPre? name r4
  let r6 := wsDrop r5
  let r7 ← dropPre? "(".data r6
  let r8 := r7.dropWhile (fun c => c != ')')
  let r9 ← dropPre? ")".data r8
  let r10 ← retType? (wsDrop r9)
  match r10 with
  | '\x7b' :: rest => some ('\x7b' :: rest)
  | _ => none

/-- Leftmost occurrence of the method-declaration pattern. -/
def methodHeadSearch (name : List Char) : List Char → Option (List Char)
  | [] => none
  | c :: cs =>
    match methodHeadAt name (c :: cs) with
    | some r => some r
    | none => methodHeadSearch name cs

/-- Walks characters counting brace depth (starting value supplied by the
caller), returning the consumed span up to and including the character that
brings the depth to zero, or failing when the braces never balance. -/
def braceTake : List Char → Nat → Option (List Char)
  | [], _ => none
  | c :: cs, depth =>
    let d := if c == '\x7b' then depth + 1 else if c == '\x7d' then depth - 1 else depth
    if d == 0 then some [c]
    else
      match braceTake cs d with
      | some t => some (c :: t)
      | none => none

/-- `ControllerServiceLayerReminder._extract_method_body`: find the method
declaration, then scan from the opening brace with depth 1 until the braces
balance; unbalanced braces count as method not found. -/
def extractMethodBody (content : List Char) (name : List Char) : Option (List Char) :=
  match methodHeadSearch name content with
  | none => none
  | some l =>
    match l with
    | '\x7b' :: rest =>
      match braceTake rest 1 with
      | some t => some ('\x7b' :: t)
      | none => none
    | _ => none

/-- An instance-mutation pattern `\$\w+->M\s*\(` matching at the head of `l`. -/
def instMutAt (m : List Char) (l : List Char) : Bool :=
  match l with
  | '$' :: r =>
    !(r.takeWhile isWord).isEmpty &&
      (match dropPre? ("->".data ++ m) (r.dropWhile isWord) with
       | none => false
       | some r2 => hasPre "(".data (wsDrop r2))
  | _ => false

/-- A static-mutation pattern `\b[A-Z]\w+::M\s*\(` matching at the head of
`l`, where `prev` is the character before `l` (boundary check). -/
def staticMutAt (m : List Char) (prev : Option Char) (l : List Char) : Bool :=
  (match prev with
   | some p => !(isWord p)
   | none => true) &&
  match l with
  | c :: r =>
    c.isUpper &&
      (!(r.takeWhile isWord).isEmpty &&
        (match dropPre? ("::".data ++ m) (r.dropWhile isWord) with
         | none => false
         | some r2 => hasPre "(".data (wsDrop r2)))
  | [] => false

/-- Search for a predicate that also inspects the preceding character. -/
def scanPrev (p : Option Char → List Char → Bool) : Option Char → List Char → Bool
  | prev, [] => p prev []
  | prev, c :: cs => p prev (c :: cs) || scanPrev p (some c) cs

/-- `ControllerServiceLayerReminder._contains_eloquent_mutation`. -/
def containsEloquentMutation (body : List Char) : Bool :=
  (["save", "update", "delete", "forceDelete"].any fun m =>
    scanAny (instMutAt m.data) body) ||
  (["create", "updateOrCreate", "firstOrCreate", "destroy"].any fun m =>
    scanPrev (staticMutAt m.data) none body)

/-- `ControllerServiceLayerReminder._has_direct_mutations_in_mutation_methods`. -/
def hasDirectMutations (content : List Char) : Bool :=
  ["store", "update", "destroy"].any fun n =>
    match extractMethodBody content n.data with
    | some body => containsEloquentMutation body
    | none => false

/-- `ControllerServiceLayerReminder._is_controller_file`. -/
def isControllerFile : Option String → Bool
  | none => false
  | some p => containsL "Controllers/".data p.data && endsL ".php".data p.data

/-- `ControllerServiceLayerReminder._is_test_file`. -/
def isTestFile : Option String → Bool
  | none => false
  | some p =>
    containsL "/tests/".data (lowerL p.data) || hasPre "tests/".data (lowerL p.data)

/-- `ControllerServiceLayerReminder.post_tool_use`. -/
def serviceLayerReminderPost (input : ToolUseEvent) : Option HookOutput :=
  if input.tool_name != "Write" then none
  else if !isControllerFile input.tool_input.file_path then none
  else if isTestFile input.tool_input.file_path then none
  else
    match input.tool_input.content with
    | none => none
    | some c =>
      if c == "" then none
      else if hasDirectMutations c.data then some (withMessageResponse reminderMessage)
      else none

/-- The decision-tag regex `<decision>\s*(allow|block)\s*</decision>`
(case-insensitive) matching at the head of `l`; `some true` for allow,
`some false` for block. -/
def decTagAt (l : List Char) : Option Bool := do
  let r ← dropPreCI? "<decision>".data l
  let r2 := wsDrop r
  match dropPreCI? "allow".data r2 with
  | some r3 => if hasPreCI "</decision>".data (wsDrop r3) then some true else none
  | none =>
    match dropPreCI? "block".data r2 with
    | some r3 => if hasPreCI "</decision>".data (wsDrop r3) then some false else none
    | none => none

/-- Leftmost decision tag in the response text. -/
def decTagSearch : List Char → Option Bool
  | [] => none
  | c :: cs =>
    match decTagAt (c :: cs) with
    | some b => some b
    | none => decTagSearch cs

/-- The lazy group `(.*?)</reason>` (DOTALL): the shortest run of characters
before a closing reason tag, or failure when no closing tag follows. -/
def reasonClose : List Char → Option (List Char)
  | [] => none
  | c :: cs =>
    if hasPreCI "</reason>".data (c :: cs) then some []
    else
      match reasonClose cs with
      | some t => some (c :: t)
      | none => none

/-- The regex `<reason>(.*?)</reason>` (case-insensitive, DOTALL): the
captured group of the leftmost viable opening tag. -/
def reasonSearch : List Char → Option (List Char)
  | [] => none
  | c :: cs =>
    if hasPreCI "<reason>".data (c :: cs) then
      match reasonClose ((c :: cs).drop 8) with
      | some t => some t
      | none => reasonSearch cs
    else reasonSearch cs

/-- `E2EPathValidator._is_e2e_test_file`: a missing or empty path never
matches; otherwise the path must contain `e2e/tests/` and end in `.spec.ts`. -/
def isE2eTestFile : Option String → Bool
  | none => false
  | some p =>
    p != "" && containsL "e2e/tests/".data p.data && endsL ".spec.ts".data p.data

/-- `E2EPathValidator._parse_response`: the decision tag wins; with no tag,
the keyword fallback searches the upper-cased text for `BLOCK` (deny with a
500-character prefix of the raw text) and then `ALLOW`; the default is no
opinion. -/
def e2eParseResponse (t : String) : Option HookOutput :=
  match decTagSearch t.data with
  | some true => none
  | some false =>
    some (denyResponse
      (match reasonSearch t.data with
       | some r =>
         if trimL r = [] then "E2E test path does not follow conventions."
         else String.mk (trimL r)
       | none => "E2E test path does not follow conventions."))
  | none =>
    if containsL "BLOCK".data (upperL t.data) then
      some (denyResponse (String.mk (t.data.take 500)))
    else if containsL "ALLOW".data (upperL t.data) then none
    else none

/-- The environment surrounding an E2EPathValidator invocation: whether the
prompt asset exists next to the hook, its text, and the outcome of the
delegate query (the assistant text segments joined with newlines, or the
error the query raised). -/
structure E2eEnv where
  templateExists : Bool
  templateText : String
  delegate : Except String String

/-- `E2EPathValidator.template`: loading the prompt asset raises a
missing-asset error when the file is absent. -/
def e2eTemplate (env : E2eEnv) : Except String String :=
  if env.templateExists then Except.ok env.templateText
  else Except.error "Prompt template not found"

/-- `E2EPathValidator._validate_with_agent`: load the template, substitute
the placeholder, query the delegate, and parse a non-blank response; a blank
response allows.  Failures of any step propagate as `Except.error`, the
analogue of a raised exception. -/
def e2eValidateWithAgent (env : E2eEnv) (file_path : String) : Except String (Option HookOutput) := do
  let tmpl ← e2eTemplate env
  let _prompt := tmpl.replace "\x7bfile_path\x7d" file_path
  let t ← env.delegate
  if t.trim == "" then pure none
  else pure (e2eParseResponse t)

/-- `E2EPathValidator.pre_tool_use`.  The result type separates a returned
decision (`Except.ok`) from a fatal uncaught failure (`Except.error`); the
handler's try/except converts every failure of the validation step into
`Except.ok none` (fail open). -/
def e2ePathValidatorPre (env : E2eEnv) (input : ToolUseEvent) : Except String (Option HookOutput) :=
  if input.tool_name != "Write" then Except.ok none
  else if !isE2eTestFile input.tool_input.file_path then Except.ok none
  else
    match e2eValidateWithAgent env ((input.tool_input.file_path).getD "") with
    | Except.ok r => Except.ok r
    | Except.error _ => Except.ok none

/-- `VueScriptValidator`'s default deny reason. -/
def vueDefaultDeny : String := "Vue file must use <script setup lang=\"ts\">"

/-- Is `c` a single or double quote (the class `["\x27]`)? -/
def isQuote (c : Char) : Bool := c == '"' || c == '\x27'

/-- The word `setup` with boundaries on both sides at the head of `l`. -/
def matchSetupHere (l : List Char) : Bool :=
  match dropPre? "setup".data l with
  | some [] => true
  | some (d :: _) => !(isWord d)
  | none => false

/-- The lookahead `.*\bsetup\b` from the current position: a bounded `setup`
somewhere later on the same line (`.` does not cross a newline), `prev`
being the character before the current position. -/
def lookSetup : Option Char → List Char → Bool
  | _, [] => false
  | prev, c :: cs =>
    ((match prev with
      | some p => !(isWord p)
      | none => true) && matchSetupHere (c :: cs)) ||
    (c != '\n' && lookSetup (some c) cs)

/-- The literal `lang=` followed by a quote, `ts`, and a quote — the two
quotes chosen independently, exactly as the classes `["\x27]` do. -/
def matchLangHere (l : List Char) : Bool :=
  match dropPre? "lang=".data l with
  | none => false
  | some [] => false
  | some (q1 :: rest) =>
    isQuote q1 &&
      (match dropPre? "ts".data rest with
       | some (q2 :: _) => isQuote q2
       | _ => false)

/-- The lookahead `.*\blang=["\x27]ts["\x27]` from the current position. -/
def lookLang : Option Char → List Char → Bool
  | _, [] => false
  | prev, c :: cs =>
    ((match prev with
      | some p => !(isWord p)
      | none => true) && matchLangHere (c :: cs)) ||
    (c != '\n' && lookLang (some c) cs)

/-- Both lookaheads hold at this position (the character before it is known
to be whitespace, hence a boundary) and `[^>]*>` closes the tag: some `>`
occurs in the rest of the text. -/
def vueBodyAt (l : List Char) : Bool :=
  lookSetup (some ' ') l && lookLang (some ' ') l && l.any (fun d => d == '>')

/-- After the literal `<script`, the pattern `\s+` may stop after any number
of whitespace characters (at least one); the lookaheads and the `[^>]*>`
tail are tried at each stop. -/
def vueAfterWs : List Char → Bool
  | [] => false
  | c :: cs => isWS c && (vueBodyAt cs || vueAfterWs cs)

/-- The quick-check regex
`<script\s+(?=.*\bsetup\b)(?=.*\blang=["\x27]ts["\x27])[^>]*>` matching at
the head of `l` (already lower-cased for the IGNORECASE flag). -/
def vueQuickAt (l : List Char) : Bool :=
  match dropPre? "<script".data l with
  | none => false
  | some r => vueAfterWs r

/-- `VueScriptValidator._has_valid_script_setup`. -/
def hasValidScriptSetup (content : String) : Bool :=
  scanAny vueQuickAt (lowerL content.data)

/-- `VueScriptValidator._parse_response`: a block tag denies with the
stripped reason-tag text (falling back to the default when the tag is
missing or blank); everything else, including a missing decision tag,
allows. -/
def vueParseResponse (t : String) : HookOutput :=
  match decTagSearch t.data with
  | some true => allowResponse
  | some false =>
    denyResponse
      (match reasonSearch t.data with
       | some r => if trimL r = [] then vueDefaultDeny else String.mk (trimL r)
       | none => vueDefaultDeny)
  | none => allowResponse

/-- `VueScriptValidator.pre_tool_use`.  `delegate` is the outcome of the
delegate query: the joined assistant text, or the error it raised; the
handler never inspects the tool name. -/
def vueScriptValidatorPre (delegate : Except String String) (input : ToolUseEvent) :
    Option HookOutput :=
  if !vuePathMatches input.tool_input.file_path then none
  else
    match input.tool_input.content with
    | none => none
    | some c =>
      if c == "" then none
      else if hasValidScriptSetup c then some allowResponse
      else
        match delegate with
        | Except.ok t => some (vueParseResponse t)
        | Except.error _ => some allowResponse

/-- Two words separated by mandatory whitespace occur in `l`: the shape the
claims describe for the `extends FormRequest` and `artisan make:request`
regexes. -/
def SepSpec (w1 w2 l : List Char) : Prop :=
  ∃ a ws b, l = a ++ w1 ++ ws ++ w2 ++ b ∧ ws ≠ [] ∧ ∀ c ∈ ws, isWS c = true

/-- The claim's description of content matching `extends FormRequest`
(case-sensitive, whitespace-separated). -/
def ExtendsFormRequestSpec (content : String) : Prop :=
  SepSpec "extends".data "FormRequest".data content.data

/-- The claim's description of a command matching `artisan make:request`
(whitespace-separated, case-insensitive) anywhere in the string. -/
def ArtisanMakeRequestSpec (command : String) : Prop :=
  SepSpec "artisan".data "make:request".data (lowerL command.data)

/-- The claim's description of a flat controller path: after replacing
backslashes with forward slashes the path ends in
`app/Http/Controllers/<filename>.php` with no subdirectory between
`Controllers/` and the filename, and the filename contains
`Controller.php`. -/
def FlatControllerSpec (file_path : String) : Prop :=
  ∃ pre fname : List Char,
    normSlash file_path.data = pre ++ "app/Http/Controllers/".data ++ fname ∧
    (∃ stem, fname = stem ++ ".php".data ∧ stem ≠ []) ∧
    (∀ c ∈ fname, c ≠ '/') ∧
    ∃ a b, fname = a ++ "Controller.php".data ++ b

/-- `tests/utils.make_write_input`: the canonical PreToolUse Write event. -/
def makeWriteInput (file_path content : String) : ToolUseEvent :=
  ⟨"PreToolUse", "Write", ⟨some file_path, some content, none, none, none⟩, "test-tool-use-id"⟩

/-- `tests/utils.make_bash_input`: the canonical PreToolUse Bash event. -/
def makeBashInput (command : String) : ToolUseEvent :=
  ⟨"PreToolUse", "Bash", ⟨none, none, none, none, some command⟩, "test-tool-use-id"⟩

/-- `tests/utils.make_edit_input`: the canonical PreToolUse Edit event. -/
def makeEditInput (file_path old_string new_string : String) : ToolUseEvent :=
  ⟨"PreToolUse", "Edit", ⟨some file_path, none, some old_string, some new_string, none⟩,
    "test-tool-use-id"⟩

/-- An E2EPathValidator environment whose prompt asset is missing. -/
def envNoTemplate : E2eEnv := ⟨false, "", Except.ok ""⟩

/-- An E2EPathValidator environment with the asset present but an
unreachable delegate. -/
def envDelegateFail : E2eEnv :=
  ⟨true, "Validate the E2E test file at: \x7bfile_path\x7d", Except.error "delegate unreachable"⟩

/-- A Write event for a well-formed E2E spec path. -/
def evE2eSmoke : ToolUseEvent :=
  makeWriteInput "e2e/tests/routes/app/users/index/smoke.spec.ts" "test content"

/-- A second Write event for a well-formed E2E spec path. -/
def evE2eOrders : ToolUseEvent :=
  makeWriteInput "e2e/tests/routes/app/orders/index/smoke.spec.ts" "test content"

/-- A Vue component using the Options API (the quick check fails on it). -/
def vueOptionsContent : String :=
  "<template>\n  <div>\x7b\x7b message \x7d\x7d</div>\n</template>\n\n<script>\nexport default \x7b\n  data() \x7b\n    return \x7b message: \x27Hello\x27 \x7d\n  \x7d\n\x7d\n</script>\n"

/-- A Write event carrying the Options-API Vue component. -/
def evVueOptions : ToolUseEvent :=
  makeWriteInput "resources/js/Components/OldComponent.vue" vueOptionsContent

/-- An event with a tool name no hook recognizes, whose tool input still
carries a Vue file path and content failing the quick check. -/
def evMysteryTool : ToolUseEvent :=
  ⟨"PreToolUse", "MysteryTool",
    ⟨some "resources/js/Pages/Admin.vue", some vueOptionsContent, none, none, none⟩,
    "test-tool-use-id"⟩

/-- A PreToolUse Read event. -/
def evRead : ToolUseEvent :=
  ⟨"PreToolUse", "Read",
    ⟨some "e2e/tests/routes/app/users/index/smoke.spec.ts", none, none, none, none⟩,
    "test-tool-use-id"⟩

/-- A flat controller Write event. -/
def evFlatController : ToolUseEvent :=
  makeWriteInput "app/Http/Controllers/UserController.php"
    "<?php\nclass UserController \x7b\x7d\n"

/-- A nested controller Write whose `store` method mutates a model directly. -/
def controllerStoreContent : String :=
  "<?php\nclass UserController\n\x7b\n    public function store(Request $request)\n    \x7b\n        $user = new User();\n        $user->name = $request->name;\n        $user->save();\n        return redirect()->route(\x27users.index\x27);\n    \x7d\n\x7d\n"

/-- The Write event carrying `controllerStoreContent`. -/
def evControllerStore : ToolUseEvent :=
  makeWriteInput "app/Http/Controllers/Users/UserController.php" controllerStoreContent

/-- A FormRequest Write event under `Http/Requests`. -/
def evRequestsPath : ToolUseEvent :=
  makeWriteInput "app/Http/Requests/StoreUserRequest.php"
    "<?php\nnamespace App\\Http\\Requests;\nclass StoreUserRequest \x7b\x7d"

/-- A Data-class Write event whose content extends `Data`. -/
def evDataPath : ToolUseEvent :=
  makeWriteInput "app/Data/User/CreateUserData.php"
    "<?php\nnamespace App\\Data\\User;\nuse Spatie\\LaravelData\\Data;\nclass CreateUserData extends Data \x7b\x7d"

/-- A Vue Write event whose script tag is `<script setup lang=\"ts\">`. -/
def evVueSetupTs : ToolUseEvent :=
  makeWriteInput "resources/js/Components/MyComponent.vue"
    "<template>\n  <div>Hello</div>\n</template>\n\n<script setup lang=\"ts\">\nconst message = \x27Hello\x27\n</script>\n"

/-- A Vue component whose only script tag opens the language value with a
double quote but closes it with a single quote. -/
def vueMismatchContent : String :=
  "<template>\n  <div>x</div>\n</template>\n\n<script setup lang=\"ts\x27>\nconst a = 1\n</script>\n"

/-- The Write event carrying `vueMismatchContent`. -/
def evVueMismatch : ToolUseEvent :=
  makeWriteInput "resources/js/Pages/Mismatch.vue" vueMismatchContent

theorem hasPre_iff : ∀ (w l : List Char), hasPre w l = true ↔ ∃ r, l = w ++ r
  | [], l => by simp [hasPre]
  | a :: as, [] => by simp [hasPre]
  | a :: as, b :: bs => by
    show (a == b && hasPre as bs) = true ↔ _
    simp only [Bool.and_eq_true, beq_iff_eq, hasPre_iff as bs, List.cons_append,
      List.cons_eq_cons]
    constructor
    · rintro ⟨rfl, r, rfl⟩; exact ⟨r, rfl, rfl⟩
    · rintro ⟨r, rfl, rfl⟩; exact ⟨rfl, r, rfl⟩

theorem dropPre?_eq_some : ∀ {w l r : List Char}, dropPre? w l = some r ↔ l = w ++ r
  | [], l, r => by simp [dropPre?, eq_comm]
  | a :: as, [], r => by simp [dropPre?]
  | a :: as, b :: bs, r => by
    show (if a == b then dropPre? as bs else none) = some r ↔ _
    by_cases h : a = b
    · subst h
      simp only [beq_self_eq_true, if_pos, @dropPre?_eq_some as bs r, List.cons_append,
        List.cons_eq_cons, true_and]
    · rw [if_neg (by simp [h])]
      simp only [List.cons_append, List.cons_eq_cons]
      constructor
      · intro hf; exact absurd hf (by simp)
      · rintro ⟨h1, -⟩; exact absurd h1.symm h

theorem scanAny_iff (p : List Char → Bool) :
    ∀ l, scanAny p l = true ↔ ∃ a b, l = a ++ b ∧ p b = true
  | [] => by
    simp only [scanAny]
    constructor
    · exact fun h => ⟨[], [], rfl, h⟩
    · rintro ⟨a, b, h, hb⟩
      obtain ⟨rfl, rfl⟩ := List.append_eq_nil.mp h.symm
      exact hb
  | c :: cs => by
    simp only [scanAny, Bool.or_eq_true, scanAny_iff p cs]
    constructor
    · rintro (h | ⟨a, b, rfl, hb⟩)
      · exact ⟨[], c :: cs, rfl, h⟩
      · exact ⟨c :: a, b, rfl, hb⟩
    · rintro ⟨a, b, h, hb⟩
      cases a with
      | nil => rw [List.nil_append] at h; exact Or.inl (h ▸ hb)
      | cons x xs =>
        rw [List.cons_append, List.cons_eq_cons] at h
        exact Or.inr ⟨xs, b, h.2, hb⟩

theorem containsL_iff (n l : List Char) :
    containsL n l = true ↔ ∃ a b, l = a ++ n ++ b := by
  rw [containsL, scanAny_iff]
  constructor
  · rintro ⟨a, b, rfl, hb⟩
    obtain ⟨r, rfl⟩ := (hasPre_iff n b).mp hb
    exact ⟨a, r, by simp⟩
  · rintro ⟨a, b, rfl⟩
    exact ⟨a, n ++ b, by simp, (hasPre_iff n (n ++ b)).mpr ⟨b, rfl⟩⟩

theorem endsL_iff (n l : List Char) : endsL n l = true ↔ ∃ a, l = a ++ n := by
  rw [endsL, hasPre_iff]
  constructor
  · rintro ⟨r, hr⟩
    refine ⟨r.reverse, ?_⟩
    have h2 := congrArg List.reverse hr
    simpa using h2
  · rintro ⟨a, rfl⟩
    exact ⟨a.reverse, by simp⟩

theorem containsL_append_self (a n b : List Char) : containsL n (a ++ n ++ b) = true :=
  (containsL_iff n (a ++ n ++ b)).mpr ⟨a, b, rfl⟩

theorem data_append (s t : String) : (s ++ t).data = s.data ++ t.data := rfl

theorem dropWhile_ws (ws : List Char) (d : Char) (t : List Char)
    (hws : ∀ c ∈ ws, isWS c = true) (hd : isWS d = false) :
    (ws ++ d :: t).dropWhile isWS = d :: t := by
  induction ws with
  | nil => simp [List.dropWhile_cons, hd]
  | cons c cs ih =>
    have hc : isWS c = true := hws c (by simp)
    simp only [List.cons_append, List.dropWhile_cons, hc, if_pos]
    exact ih fun x hx => hws x (by simp [hx])

theorem wsPlus?_eq_some {l r : List Char} :
    wsPlus? l = some r ↔ ∃ c cs, l = c :: cs ∧ isWS c = true ∧ r = wsDrop cs := by
  cases l with
  | nil => simp [wsPlus?]
  | cons c cs =>
    rw [wsPlus?]
    by_cases hc : isWS c
    · rw [if_pos hc]
      constructor
      · intro h; exact ⟨c, cs, rfl, hc, (Option.some.inj h).symm⟩
      · rintro ⟨c', cs', heq, hc', rfl⟩
        obtain ⟨rfl, rfl⟩ := List.cons_eq_cons.mp heq
        rfl
    · rw [if_neg hc]
      constructor
      · intro h; exact absurd h (by simp)
      · rintro ⟨c', cs', heq, hc', rfl⟩
        obtain ⟨rfl, rfl⟩ := List.cons_eq_cons.mp heq
        exact absurd hc' hc

theorem sepAt_iff (w1 : List Char) (d : Char) (w2' : List Char) (hd : isWS d = false)
    (l : List Char) :
    sepAt w1 (d :: w2') l = true ↔
      ∃ ws b, l = w1 ++ ws ++ d :: w2' ++ b ∧ ws ≠ [] ∧ ∀ c ∈ ws, isWS c = true := by
  constructor
  · intro h
    rw [sepAt] at h
    split at h
    · exact absurd h (by simp)
    · rename_i r hdp
      split at h
      · exact absurd h (by simp)
      · rename_i r2 hws2
        obtain rfl := dropPre?_eq_some.mp hdp
        obtain ⟨c, cs, rfl, hc, rfl⟩ := wsPlus?_eq_some.mp hws2
        obtain ⟨tail, htail⟩ := (hasPre_iff _ _).mp h
        refine ⟨c :: cs.takeWhile isWS, tail, ?_, by simp, ?_⟩
        · have hsplit : cs.takeWhile isWS ++ cs.dropWhile isWS = cs :=
            List.takeWhile_append_dropWhile isWS cs
          rw [wsDrop] at htail
          have hcs : cs = cs.takeWhile isWS ++ (d :: w2' ++ tail) := by
            rw [← htail, hsplit]
          conv_lhs => rw [hcs]
          simp
        · intro x hx
          rcases List.mem_cons.mp hx with rfl | hx2
          · exact hc
          · exact List.mem_takeWhile_imp hx2
  · rintro ⟨ws, b, rfl, hne, hws⟩
    rw [sepAt]
    have hdp : dropPre? w1 (w1 ++ (ws ++ (d :: (w2' ++ b)))) = some (ws ++ (d :: (w2' ++ b))) := by
      rw [dropPre?_eq_some]
    simp only [List.append_assoc, List.cons_append] at hdp ⊢
    simp only [hdp]
    cases ws with
    | nil => exact absurd rfl hne
    | cons c cs =>
      have hc : isWS c = true := hws c (by simp)
      have hwp : wsPlus? (c :: (cs ++ (d :: (w2' ++ b)))) = some (d :: (w2' ++ b)) := by
        rw [wsPlus?, if_pos hc, wsDrop,
          dropWhile_ws cs d (w2' ++ b) (fun x hx => hws x (by simp [hx])) hd]
      simp only [List.cons_append] at hwp ⊢
      simp only [hwp]
      exact (hasPre_iff _ _).mpr ⟨b, rfl⟩

theorem sepSearch_iff (w1 : List Char) (d : Char) (w2' : List Char) (hd : isWS d = false)
    (l : List Char) :
    sepSearch w1 (d :: w2') l = true ↔ SepSpec w1 (d :: w2') l := by
  rw [sepSearch, scanAny_iff, SepSpec]
  constructor
  · rintro ⟨a, s, rfl, hs⟩
    obtain ⟨ws, b, rfl, h1, h2⟩ := (sepAt_iff w1 d w2' hd s).mp hs
    exact ⟨a, ws, b, by simp, h1, h2⟩
  · rintro ⟨a, ws, b, hl, h1, h2⟩
    refine ⟨a, w1 ++ ws ++ d :: w2' ++ b, by simp [hl], ?_⟩
    exact (sepAt_iff w1 d w2' hd _).mpr ⟨ws, b, rfl, h1, h2⟩

theorem splitSlashAux_ne_nil (acc l : List Char) : splitSlashAux acc l ≠ [] := by
  induction l generalizing acc with
  | nil => simp [splitSlashAux]
  | cons c cs ih =>
    rw [splitSlashAux]
    by_cases h : c = '/'
    · simp [h]
    · simpa [h] using ih (c :: acc)

theorem splitSlashAux_no_slash (acc l : List Char) (h : ∀ c ∈ l, c ≠ '/') :
    splitSlashAux acc l = [acc.reverse ++ l] := by
  induction l generalizing acc with
  | nil => simp [splitSlashAux]
  | cons c cs ih =>
    have hc : c ≠ '/' := h c (by simp)
    rw [splitSlashAux, if_neg (by simp [hc]), ih (c :: acc) (fun x hx => h x (by simp [hx]))]
    simp

theorem getLastD_of_ne_nil {α : Type} (l : List α) (d d' : α) (h : l ≠ []) :
    l.getLastD d = l.getLastD d' := by
  cases l with
  | nil => exact absurd rfl h
  | cons a as => rw [List.getLastD_cons, List.getLastD_cons]

theorem splitSlashAux_slash (acc xs ys : List Char) :
    (splitSlashAux acc (xs ++ '/' :: ys)).getLastD [] =
      (splitSlashAux [] ys).getLastD [] := by
  induction xs generalizing acc with
  | nil =>
    rw [List.nil_append, splitSlashAux, if_pos (by simp), List.getLastD_cons]
    exact getLastD_of_ne_nil _ _ _ (splitSlashAux_ne_nil [] ys)
  | cons c cs ih =>
    rw [List.cons_append, splitSlashAux]
    by_cases h : c = '/'
    · rw [if_pos (by simp [h]), List.getLastD_cons]
      rw [getLastD_of_ne_nil _ _ ([]) (splitSlashAux_ne_nil [] (cs ++ '/' :: ys))]
      exact ih []
    · rw [if_neg (by simp [h])]
      exact ih (c :: acc)

theorem lastSegment_concat (xs r : List Char) (h : ∀ c ∈ r, c ≠ '/') :
    lastSegment (xs ++ '/' :: r) = r := by
  rw [lastSegment, splitSlash, splitSlashAux_slash, splitSlashAux_no_slash [] r h]
  simp

theorem flatAt_iff (l : List Char) :
    flatAt l = true ↔
      ∃ g, l = "app/Http/Controllers/".data ++ (g ++ ".php".data) ∧ g ≠ [] ∧
        ∀ c ∈ g ++ ".php".data, c ≠ '/' := by
  constructor
  · intro h
    rw [flatAt] at h
    split at h
    · exact absurd h (by simp)
    · rename_i r hdp
      obtain rfl := dropPre?_eq_some.mp hdp
      simp only [Bool.and_eq_true, decide_eq_true_eq, List.all_eq_true, bne_iff_ne] at h
      obtain ⟨⟨hlen, hall⟩, hend⟩ := h
      obtain ⟨g, rfl⟩ := (endsL_iff _ _).mp hend
      refine ⟨g, rfl, ?_, fun c hc => hall c hc⟩
      intro hg
      subst hg
      simp at hlen
  · rintro ⟨g, rfl, hne, hall⟩
    rw [flatAt]
    have hdp : dropPre? "app/Http/Controllers/".data
        ("app/Http/Controllers/".data ++ (g ++ ".php".data)) = some (g ++ ".php".data) := by
      rw [dropPre?_eq_some]
    simp only [hdp]
    simp only [Bool.and_eq_true, decide_eq_true_eq, List.all_eq_true, bne_iff_ne]
    refine ⟨⟨?_, hall⟩, (endsL_iff _ _).mpr ⟨g, rfl⟩⟩
    have : 1 ≤ g.length := List.length_pos.mpr hne
    simp [List.length_append]
    omega

theorem isFlatController_iff (p : String) :
    isFlatController p = true ↔ FlatControllerSpec p := by
  rw [isFlatController, FlatControllerSpec]
  by_cases hscan : scanAny flatAt (normSlash p.data) = true
  · rw [if_pos hscan]
    obtain ⟨a, b, hnl, hb⟩ := (scanAny_iff _ _).mp hscan
    obtain ⟨g, rfl, hg, hall⟩ := (flatAt_iff b).mp hb
    have hdir : "app/Http/Controllers/".data = "app/Http/Controllers".data ++ ['/'] := by decide
    have hseg : lastSegment (normSlash p.data) = g ++ ".php".data := by
      rw [hnl, hdir]
      have : a ++ ("app/Http/Controllers".data ++ ['/'] ++ (g ++ ".php".data)) =
          (a ++ "app/Http/Controllers".data) ++ '/' :: (g ++ ".php".data) := by simp
      rw [this]
      exact lastSegment_concat _ _ hall
    rw [hseg]
    constructor
    · intro hcont
      obtain ⟨x, y, hxy⟩ := (containsL_iff _ _).mp hcont
      exact ⟨a, g ++ ".php".data, by rw [hnl, ← List.append_assoc], ⟨g, rfl, hg⟩, hall,
        x, y, by rw [← hxy]⟩
    · rintro ⟨pre, fname, heq, ⟨stem, hstem, hstemne⟩, hfall, x, y, hxy⟩
      have h2 : normSlash p.data = (pre ++ "app/Http/Controllers".data) ++ '/' :: fname := by
        rw [heq, hdir]; simp
      have hfn : fname = g ++ ".php".data := by
        rw [← hseg, h2, lastSegment_concat _ _ hfall]
      rw [containsL_iff]
      exact ⟨x, y, by rw [← hfn, hxy]⟩
  · rw [if_neg hscan]
    simp only [Bool.false_eq_true, false_iff]
    rintro ⟨pre, fname, heq, ⟨stem, hstem, hstemne⟩, hfall, x, y, hxy⟩
    apply hscan
    rw [scanAny_iff]
    refine ⟨pre, "app/Http/Controllers/".data ++ fname, by simp [heq], ?_⟩
    rw [flatAt_iff]
    exact ⟨stem, by rw [hstem], hstemne, by rw [← hstem]; exact hfall⟩

theorem containsL_suffix (a n : List Char) : containsL n (a ++ n) = true := by
  have h := containsL_append_self a n []
  simpa using h

theorem except_bind_ok {ε α β : Type} (a : α) (f : α → Except ε β) :
    (Except.ok a : Except ε α) >>= f = f a := rfl

theorem except_bind_err {ε α β : Type} (e : ε) (f : α → Except ε β) :
    (Except.error e : Except ε α) >>= f = Except.error e := rfl

theorem sepSearch_iff_make (l : List Char) :
    sepSearch "artisan".data "make:request".data l = true ↔
      SepSpec "artisan".data "make:request".data l := by
  have h : "make:request".data = 'm' :: "ake:request".data := by decide
  rw [h]
  exact sepSearch_iff "artisan".data 'm' "ake:request".data (by decide) l

theorem sepSearch_iff_extends (l : List Char) :
    sepSearch "extends".data "FormRequest".data l = true ↔
      SepSpec "extends".data "FormRequest".data l := by
  have h : "FormRequest".data = 'F' :: "ormRequest".data := by decide
  rw [h]
  exact sepSearch_iff "extends".data 'F' "ormRequest".data (by decide) l

/-- Claim C7: for every PreToolUse Bash event, FormRequestBlocker denies
exactly when the command text matches `artisan make:request`
(whitespace-separated, case-insensitive) anywhere in the string; in
particular it denies `php artisan make:request StoreUserRequest` and
`/usr/bin/php artisan make:request TestRequest`, and allows
`php artisan make:model User`. -/
theorem claim_C7 :
    (∀ ev : ToolUseEvent, ev.tool_name = "Bash" →
      ((∃ r, formRequestBlockerPre ev = some (denyResponse r)) ↔
        ArtisanMakeRequestSpec ((ev.tool_input.command).getD ""))) ∧
    (∃ r, formRequestBlockerPre (makeBashInput "php artisan make:request StoreUserRequest") =
      some (denyResponse r)) ∧
    (∃ r, formRequestBlockerPre (makeBashInput "/usr/bin/php artisan make:request TestRequest") =
      some (denyResponse r)) ∧
    formRequestBlockerPre (makeBashInput "php artisan make:model User") = none := by
  refine ⟨?_, ⟨_, rfl⟩, ⟨_, rfl⟩, rfl⟩
  intro ev h
  rw [ArtisanMakeRequestSpec, ← sepSearch_iff_make]
  rw [formRequestBlockerPre, if_pos (by simp [h]), checkBashCommand]
  by_cases hs : sepSearch "artisan".data "make:request".data
      (lowerL ((ev.tool_input.command).getD "").data) = true
  · simp [hs]
  · simp [hs]

/-- Claim C6: for every PreToolUse Write event, FormRequestBlocker denies
with the Data-class guidance message exactly when the path matches the
`**/Http/Requests/**/*.php` glob, or the content matches
`extends FormRequest` (case-sensitive, whitespace-separated), or the content
matches a namespaced Illuminate `FormRequest` import; in particular it
denies a Write to `app/Http/Requests/StoreUserRequest.php` and allows a
Write to `app/Data/User/CreateUserData.php` whose content contains
`extends Data`. -/
theorem claim_C6 :
    (∀ ev : ToolUseEvent, ev.tool_name = "Write" →
      ((∃ r, formRequestBlockerPre ev = some (denyResponse r) ∧
          containsL formRequestGuidance.data r.data = true) ↔
        (requestsPathMatches ev.tool_input.file_path = true ∨
          ExtendsFormRequestSpec ((ev.tool_input.content).getD "") ∨
          illuminateImport ((ev.tool_input.content).getD "") = true))) ∧
    (∃ r, formRequestBlockerPre evRequestsPath = some (denyResponse r)) ∧
    formRequestBlockerPre evDataPath = none := by
  refine ⟨?_, ⟨_, rfl⟩, rfl⟩
  intro ev h
  rw [ExtendsFormRequestSpec, ← sepSearch_iff_extends]
  have hb : (ev.tool_name == "Bash") = false := by rw [h]; rfl
  have hw : (ev.tool_name == "Write") = true := by rw [h]; rfl
  rw [formRequestBlockerPre, hb, if_neg (by simp), hw, if_pos rfl, checkWriteContent]
  by_cases h1 : requestsPathMatches ev.tool_input.file_path = true
  · rw [if_pos h1]
    simp only [h1, true_or, iff_true]
    refine ⟨_, rfl, ?_⟩
    rw [data_append]
    exact containsL_suffix _ _
  · rw [if_neg h1]
    by_cases h2 : sepSearch "extends".data "FormRequest".data
        ((ev.tool_input.content).getD "").data = true
    · rw [if_pos h2]
      simp only [h2, true_or, or_true, iff_true]
      refine ⟨_, rfl, ?_⟩
      rw [data_append]
      exact containsL_suffix _ _
    · rw [if_neg h2]
      by_cases h3 : illuminateImport ((ev.tool_input.content).getD "") = true
      · rw [if_pos h3]
        simp only [h3, true_or, or_true, iff_true]
        refine ⟨_, rfl, ?_⟩
        rw [data_append]
        exact containsL_suffix _ _
      · rw [if_neg h3]
        simp [h1, h2, h3]

/-- Claim C4: ControllerStructureValidator denies a PreToolUse Write exactly
when, after replacing backslashes with forward slashes, the path ends in
`app/Http/Controllers/<filename>.php` with no subdirectory between
`Controllers/` and the filename and the filename contains `Controller.php`;
the deny reason contains "nested"; and Edit events always yield no opinion
regardless of path. -/
theorem claim_C4 :
    (∀ ev : ToolUseEvent, ev.tool_name = "Write" →
      ((∃ r, controllerStructurePre ev = some (denyResponse r)) ↔
        FlatControllerSpec ((ev.tool_input.file_path).getD ""))) ∧
    (∀ (ev : ToolUseEvent) (r : String), controllerStructurePre ev = some (denyResponse r) →
      containsL "nested".data r.data = true) ∧
    (∀ ev : ToolUseEvent, ev.tool_name = "Edit" → controllerStructurePre ev = none) := by
  refine ⟨?_, ?_, ?_⟩
  · intro ev h
    rw [← isFlatController_iff]
    have hw : (ev.tool_name == "Write") = true := by rw [h]; rfl
    rw [controllerStructurePre, hw, if_pos rfl]
    by_cases hf : isFlatController ((ev.tool_input.file_path).getD "") = true
    · rw [if_pos hf]
      simp [hf]
    · rw [if_neg hf]
      simp [hf]
  · intro ev r hr
    rw [controllerStructurePre] at hr
    split at hr
    · split at hr
      · have h2 : denyResponse
            ("Do not place controllers directly in app/Http/Controllers/. " ++
              controllerGuidance) = denyResponse r := Option.some.inj hr
        rw [denyResponse, denyResponse] at h2
        have h3 : some ("Do not place controllers directly in app/Http/Controllers/. " ++
            controllerGuidance) = some r := congrArg HookOutput.permissionDecisionReason h2
        obtain rfl := (Option.some.inj h3).symm
        decide
      · exact absurd hr (by simp)
    · split at hr
      · exact absurd hr (by simp)
      · exact absurd hr (by simp)
  · intro ev h
    have hw : (ev.tool_name == "Write") = false := by rw [h]; rfl
    have he : (ev.tool_name == "Edit") = true := by rw [h]; rfl
    rw [controllerStructurePre, hw, if_neg (by simp), he, if_pos rfl]

/-- Claim C5: ControllerServiceLayerReminder's PostToolUse handler returns
the fixed non-empty advisory message exactly when the event is a Write to a
non-test path containing `Controllers/` and ending in `.php`, with non-empty
content in which the body of a `public function store`, `update` or
`destroy` method — extracted by brace-depth counting that starts at 1 and
stops at 0, with unbalanced braces treated as not found — matches one of
the instance- or static-mutation patterns; and it never returns a deny. -/
theorem claim_C5 (ev : ToolUseEvent) :
    (serviceLayerReminderPost ev = some (withMessageResponse reminderMessage) ↔
      (ev.tool_name = "Write" ∧ isControllerFile ev.tool_input.file_path = true ∧
        isTestFile ev.tool_input.file_path = false ∧
        ∃ c, ev.tool_input.content = some c ∧ c ≠ "" ∧ hasDirectMutations c.data = true)) ∧
    (∀ l : List Char, hasDirectMutations l = true ↔
      ∃ m ∈ (["store", "update", "destroy"] : List String), ∃ body,
        extractMethodBody l m.data = some body ∧ containsEloquentMutation body = true) ∧
    reminderMessage ≠ "" ∧
    (∀ o, serviceLayerReminderPost ev = some o → o.permissionDecision ≠ some "deny") := by
  refine ⟨?_, ?_, by decide, ?_⟩
  · by_cases h1 : ev.tool_name = "Write"
    · by_cases h2 : isControllerFile ev.tool_input.file_path = true
      · by_cases h3 : isTestFile ev.tool_input.file_path = true
        · simp [serviceLayerReminderPost, h1, h2, h3]
        · cases hc : ev.tool_input.content with
          | none => simp [serviceLayerReminderPost, h1, h2, h3, hc]
          | some c =>
            by_cases h4 : c = ""
            · simp [serviceLayerReminderPost, h1, h2, h3, hc, h4]
            · by_cases h5 : hasDirectMutations c.data = true
              · simp [serviceLayerReminderPost, h1, h2, h3, hc, h4, h5]
              · simp [serviceLayerReminderPost, h1, h2, h3, hc, h4, h5]
      · simp [serviceLayerReminderPost, h1, h2]
    · simp [serviceLayerReminderPost, h1]
  · intro l
    rw [hasDirectMutations, List.any_eq_true]
    constructor
    · rintro ⟨m, hm, hmatch⟩
      refine ⟨m, hm, ?_⟩
      cases hx : extractMethodBody l m.data with
      | none =>
        simp only [hx] at hmatch
        exact absurd hmatch (by simp)
      | some body =>
        simp only [hx] at hmatch
        exact ⟨body, rfl, hmatch⟩
    · rintro ⟨m, hm, body, hx, hb⟩
      refine ⟨m, hm, ?_⟩
      simp only [hx]
      exact hb
  · intro o ho
    rw [serviceLayerReminderPost] at ho
    split at ho
    · exact absurd ho (by simp)
    · split at ho
      · exact absurd ho (by simp)
      · split at ho
        · exact absurd ho (by simp)
        · split at ho
          · exact absurd ho (by simp)
          · split at ho
            · exact absurd ho (by simp)
            · split at ho
              · obtain rfl := Option.some.inj ho
                simp [withMessageResponse]
              · exact absurd ho (by simp)

/-- Claim C1 counterexample: with the prompt template absent, a matching
PreToolUse Write (path under `e2e/tests/` ending in `.spec.ts`) does not
surface a hard failure — the missing-asset error is raised inside the
handler's try/except, which fails open to no opinion (allow). -/
theorem claim_C1_counterexample :
    e2ePathValidatorPre envNoTemplate evE2eSmoke = Except.ok none ∧
    ∀ msg, e2ePathValidatorPre envNoTemplate evE2eSmoke ≠ Except.error msg := by
  have h0 : e2ePathValidatorPre envNoTemplate evE2eSmoke = Except.ok none := rfl
  exact ⟨h0, fun msg h => absurd (h0.symm.trans h) (by simp)⟩

/-- Claim C1 amended: when the template is absent and a matching Write event
arrives, the template loader raises a missing-asset error inside the
validation step, but the handler's fail-open guard converts it into no
opinion (allow); no hard failure escapes the hook. -/
theorem claim_C1_amended (env : E2eEnv) (ev : ToolUseEvent)
    (h1 : env.templateExists = false) (h2 : ev.tool_name = "Write")
    (h3 : isE2eTestFile ev.tool_input.file_path = true) :
    e2eValidateWithAgent env ((ev.tool_input.file_path).getD "") =
      Except.error "Prompt template not found" ∧
    e2ePathValidatorPre env ev = Except.ok none := by
  have hv : e2eValidateWithAgent env ((ev.tool_input.file_path).getD "") =
      Except.error "Prompt template not found" := by
    rw [e2eValidateWithAgent, e2eTemplate, if_neg (by simp [h1]), except_bind_err]
  refine ⟨hv, ?_⟩
  rw [e2ePathValidatorPre, if_neg (by simp [h2]), if_neg (by simp [h3])]
  simp only [hv]

/-- Claim C2: for both delegate-using hooks, any error raised by the
delegate query is caught and converted into an allow outcome — an explicit
allow for VueScriptValidator and no opinion for E2EPathValidator — and is
never propagated as a deny or a process failure. -/
theorem claim_C2 :
    (∀ (e : String) (ev : ToolUseEvent) (c : String),
      vuePathMatches ev.tool_input.file_path = true →
      ev.tool_input.content = some c → c ≠ "" →
      vueScriptValidatorPre (Except.error e) ev = some allowResponse) ∧
    (∀ (e : String) (env : E2eEnv) (ev : ToolUseEvent),
      env.delegate = Except.error e → env.templateExists = true →
      ev.tool_name = "Write" → isE2eTestFile ev.tool_input.file_path = true →
      e2ePathValidatorPre env ev = Except.ok none) := by
  constructor
  · intro e ev c hp hc hne
    rw [vueScriptValidatorPre, if_neg (by simp [hp])]
    simp only [hc]
    rw [if_neg (by simp [hne])]
    by_cases hq : hasValidScriptSetup c = true
    · rw [if_pos hq]
    · rw [if_neg hq]
  · intro e env ev hd ht h2 h3
    have hv : e2eValidateWithAgent env ((ev.tool_input.file_path).getD "") =
        Except.error e := by
      rw [e2eValidateWithAgent, e2eTemplate, if_pos (by simp [ht]), except_bind_ok]
      rw [hd, except_bind_err]
    rw [e2ePathValidatorPre, if_neg (by simp [h2]), if_neg (by simp [h3])]
    simp only [hv]

/-- Claim C3 counterexample: VueScriptValidator does not ignore an event
whose tool name is outside every hook's trigger sets — it never inspects the
tool name at all.  An event with an unrecognized tool name whose tool input
carries a `.vue` file path and quick-check-failing content is processed, and
when the delegate answers with a block tag the hook returns a deny rather
than no opinion. -/
theorem claim_C3_counterexample :
    evMysteryTool.tool_name ∉ (["Write", "Edit", "Bash", "Read"] : List String) ∧
    vueScriptValidatorPre (Except.ok "<decision>block</decision>") evMysteryTool =
      some (denyResponse vueDefaultDeny) :=
  ⟨by decide, rfl⟩

/-- Claim C3 amended: the four hooks that dispatch on the tool name return
no opinion for every event whose tool name is outside their trigger set
(Write for ControllerServiceLayerReminder and E2EPathValidator, Bash/Write
for FormRequestBlocker, Write/Edit for ControllerStructureValidator);
VueScriptValidator filters only on the tool input's file path and content,
so it returns no opinion whenever the content field is absent (as for Read,
Edit and Bash inputs), but an unrecognized tool name carrying a `.vue` path
and content is processed rather than ignored. -/
theorem claim_C3_amended (ev : ToolUseEvent) :
    (ev.tool_name ≠ "Write" → serviceLayerReminderPost ev = none) ∧
    (ev.tool_name ≠ "Write" → ∀ env, e2ePathValidatorPre env ev = Except.ok none) ∧
    (ev.tool_name ≠ "Bash" → ev.tool_name ≠ "Write" → formRequestBlockerPre ev = none) ∧
    (ev.tool_name ≠ "Write" → ev.tool_name ≠ "Edit" → controllerStructurePre ev = none) ∧
    (∀ d, ev.tool_input.content = none → vueScriptValidatorPre d ev = none) := by
  refine ⟨?_, ?_, ?_, ?_, ?_⟩
  · intro h
    rw [serviceLayerReminderPost, if_pos (by simp [bne_iff_ne, h])]
  · intro h env
    rw [e2ePathValidatorPre, if_pos (by simp [bne_iff_ne, h])]
  · intro hb hw
    rw [formRequestBlockerPre, if_neg (by simp [hb]), if_neg (by simp [hw])]
  · intro hw he
    rw [controllerStructurePre, if_neg (by simp [hw]), if_neg (by simp [he])]
  · intro d hc
    rw [vueScriptValidatorPre.eq_def]
    cases hp : vuePathMatches ev.tool_input.file_path with
    | false => rw [if_pos (by rfl)]
    | true =>
      rw [if_neg (by simp)]
      simp only [hc]

/-- Claim C3 amended, witnessed on a PreToolUse Read event. -/
theorem claim_C3_amended_witness :
    serviceLayerReminderPost evRead = none ∧
    e2ePathValidatorPre envDelegateFail evRead = Except.ok none ∧
    formRequestBlockerPre evRead = none ∧
    controllerStructurePre evRead = none ∧
    vueScriptValidatorPre (Except.ok "") evRead = none :=
  ⟨(claim_C3_amended evRead).1 (by decide),
   (claim_C3_amended evRead).2.1 (by decide) envDelegateFail,
   (claim_C3_amended evRead).2.2.1 (by decide) (by decide),
   (claim_C3_amended evRead).2.2.2.1 (by decide) (by decide),
   (claim_C3_amended evRead).2.2.2.2 (Except.ok "") rfl⟩

/-- Claim C8: when the delegate response carries no decision tag,
E2EPathValidator denies with the first 500 characters of the raw text as the
reason if the text contains the word BLOCK case-insensitively, and returns
no opinion otherwise (whether the text contains ALLOW or neither keyword). -/
theorem claim_C8 (t : String) (h : decTagSearch t.data = none) :
    e2eParseResponse t =
      if containsL "BLOCK".data (upperL t.data) then
        some (denyResponse (String.mk (t.data.take 500)))
      else none := by
  rw [e2eParseResponse]
  simp only [h]
  by_cases hb : containsL "BLOCK".data (upperL t.data) = true
  · rw [if_pos hb, if_pos hb]
  · rw [if_neg hb, if_neg hb]
    by_cases ha : containsL "ALLOW".data (upperL t.data) = true
    · rw [if_pos ha]
    · rw [if_neg ha]

/-- Claim C8 witnessed on a tagless response containing the keyword. -/
theorem claim_C8_witness :
    decTagSearch "I would BLOCK this write.".data = none ∧
    e2eParseResponse "I would BLOCK this write." =
      if containsL "BLOCK".data (upperL "I would BLOCK this write.".data) then
        some (denyResponse (String.mk ("I would BLOCK this write.".data.take 500)))
      else none :=
  ⟨by decide, claim_C8 "I would BLOCK this write." (by decide)⟩

/-- Claim C9: a PreToolUse Write to a `.vue` path whose content passes the
quick regex is answered with an explicit allow for every delegate outcome
(the delegate is never consulted); in particular `<script setup lang="ts">`
and `<script lang="ts" setup>` pass the quick check, empty content yields no
opinion for every delegate outcome, and non-`.vue` paths yield no opinion
for every delegate outcome. -/
theorem claim_C9 :
    (∀ (d : Except String String) (ev : ToolUseEvent) (c : String),
      ev.tool_name = "Write" →
      vuePathMatches ev.tool_input.file_path = true →
      ev.tool_input.content = some c → c ≠ "" →
      hasValidScriptSetup c = true →
      vueScriptValidatorPre d ev = some allowResponse) ∧
    hasValidScriptSetup "<script setup lang=\"ts\">" = true ∧
    hasValidScriptSetup "<script lang=\"ts\" setup>" = true ∧
    (∀ (d : Except String String) (ev : ToolUseEvent),
      ev.tool_input.content = some "" → vueScriptValidatorPre d ev = none) ∧
    (∀ (d : Except String String) (ev : ToolUseEvent),
      vuePathMatches ev.tool_input.file_path = false → vueScriptValidatorPre d ev = none) := by
  refine ⟨?_, by decide, by decide, ?_, ?_⟩
  · intro d ev c h hp hc hne hq
    rw [vueScriptValidatorPre.eq_def, if_neg (by simp [hp])]
    simp only [hc]
    rw [if_neg (by simp [hne]), if_pos hq]
  · intro d ev hc
    rw [vueScriptValidatorPre.eq_def]
    cases hp : vuePathMatches ev.tool_input.file_path with
    | false => rw [if_pos (by rfl)]
    | true =>
      rw [if_neg (by simp)]
      simp only [hc]
      simp
  · intro d ev hp
    rw [vueScriptValidatorPre.eq_def, if_pos (by rw [hp]; rfl)]

set_option maxRecDepth 8192 in
/-- Claim C9 witnessed on a component with `<script setup lang="ts">` and an
erroring delegate. -/
theorem claim_C9_witness :
    vueScriptValidatorPre (Except.error "delegate unreachable") evVueSetupTs =
      some allowResponse :=
  claim_C9.1 (Except.error "delegate unreachable") evVueSetupTs _ rfl (by decide) rfl
    (by decide) (by decide)

/-- Claim C10: the quick regex accepts mismatched quote styles — a component
whose script tag is `<script setup lang="ts'>` passes the quick check and is
answered with an explicit allow for every delegate outcome, even though
neither `lang="ts"` nor `lang='ts'` occurs in the content. -/
theorem claim_C10 :
    hasValidScriptSetup vueMismatchContent = true ∧
    containsL "lang=\"ts\"".data vueMismatchContent.data = false ∧
    containsL "lang=\x27ts\x27".data vueMismatchContent.data = false ∧
    ∀ d : Except String String,
      vueScriptValidatorPre d evVueMismatch = some allowResponse :=
  ⟨by decide, by decide, by decide, fun _ => rfl⟩

/-- Claim C1 amended, witnessed on the no-template environment. -/
theorem claim_C1_amended_witness :
    e2eValidateWithAgent envNoTemplate ((evE2eSmoke.tool_input.file_path).getD "") =
      Except.error "Prompt template not found" ∧
    e2ePathValidatorPre envNoTemplate evE2eSmoke = Except.ok none :=
  claim_C1_amended envNoTemplate evE2eSmoke rfl rfl (by decide)

/-- Claim C2 witnessed for both hooks with an unreachable delegate. -/
theorem claim_C2_witness :
    vueScriptValidatorPre (Except.error "delegate unreachable") evVueOptions =
      some allowResponse ∧
    e2ePathValidatorPre envDelegateFail evE2eOrders = Except.ok none :=
  ⟨claim_C2.1 "delegate unreachable" evVueOptions vueOptionsContent (by decide) rfl (by decide),
   claim_C2.2 "delegate unreachable" envDelegateFail evE2eOrders rfl rfl rfl (by decide)⟩

/-- Claim C4 witnessed on a flat controller Write. -/
theorem claim_C4_witness :
    (∃ r, controllerStructurePre evFlatController = some (denyResponse r)) ↔
      FlatControllerSpec ((evFlatController.tool_input.file_path).getD "") :=
  claim_C4.1 evFlatController rfl

set_option maxRecDepth 16384 in
/-- Claim C5 witnessed on a controller whose `store` method saves a model. -/
theorem claim_C5_witness :
    serviceLayerReminderPost evControllerStore = some (withMessageResponse reminderMessage) :=
  (claim_C5 evControllerStore).1.mpr ⟨rfl, by decide, by decide,
    controllerStoreContent, rfl, by decide, by decide⟩

/-- Claim C6 witnessed on a Write into `Http/Requests`. -/
theorem claim_C6_witness :
    (∃ r, formRequestBlockerPre evRequestsPath = some (denyResponse r) ∧
        containsL formRequestGuidance.data r.data = true) ↔
      (requestsPathMatches evRequestsPath.tool_input.file_path = true ∨
        ExtendsFormRequestSpec ((evRequestsPath.tool_input.content).getD "") ∨
        illuminateImport ((evRequestsPath.tool_input.content).getD "") = true) :=
  claim_C6.1 evRequestsPath rfl

/-- Claim C7 witnessed on the `make:request` command. -/
theorem claim_C7_witness :
    (∃ r, formRequestBlockerPre (makeBashInput "php artisan make:request StoreUserRequest") =
        some (denyResponse r)) ↔
      ArtisanMakeRequestSpec
        (((makeBashInput "php artisan make:request StoreUserRequest").tool_input.command).getD "") :=
  claim_C7.1 (makeBashInput "php artisan make:request StoreUserRequest") rfl

end LivHooks
